import Mathlib

/-!
Verification of the clusternet shadow API server installation pipeline
(pkg/hub/apiserver/shadow/apiserver.go) and of the cluster-status
controller (pkg/controllers/clusters/clusterstatus/clusterstatus_controller.go).

Go maps keyed by strings are modelled as association lists (`StrMap`)
whose assignment operation `StrMap.insertGo` replaces the value of an
existing key in place and otherwise appends the new binding at the end,
which matches Go's `m[k] = v` update semantics.  Where the Go code ranges
over a map (whose iteration order Go leaves unspecified) the model
iterates the association list in insertion order, one admissible order.
-/

namespace Clusternet

/-- ASCII lower-casing of one character, the behavior of Go's
strings.ToLower on the ASCII range (the only range exercised here). -/
def charLower (c : Char) : Char :=
  if 65 ≤ c.toNat ∧ c.toNat ≤ 90 then Char.ofNat (c.toNat + 32) else c

/-- strings.ToLower.  Implemented over the character list so that the
kernel can evaluate it on concrete strings. -/
def strLower (s : String) : String := ⟨s.data.map charLower⟩

/-- strings.HasSuffix.  Byte-wise suffix in Go; character-wise here, which
agrees on well-formed text.  Implemented over the character list so that
the kernel can evaluate it on concrete strings. -/
def strEndsWith (s t : String) : Bool := t.data.isSuffixOf s.data

/-- Association list with string keys, modelling a Go `map[string]V`. -/
abbrev StrMap (α : Type) : Type := List (String × α)

/-- Whether the map has a binding for key `k`. -/
def StrMap.hasKey {α : Type} : StrMap α → String → Bool
  | [], _ => false
  | p :: m, k => p.1 = k || StrMap.hasKey m k

/-- Lookup of the first binding of `k`, modelling Go `m[k]`. -/
def StrMap.find {α : Type} : StrMap α → String → Option α
  | [], _ => none
  | p :: m, k => if p.1 = k then some p.2 else StrMap.find m k

/-- Go assignment `m[k] = v`: replace the value bound to an existing key
in place, otherwise append the binding. -/
def StrMap.insertGo {α : Type} (m : StrMap α) (k : String) (v : α) : StrMap α :=
  if m.hasKey k then m.map (fun p => if p.1 = k then (k, v) else p) else m ++ [(k, v)]

/-- Keys of the map, in order. -/
def StrMap.keys {α : Type} (m : StrMap α) : List String := m.map Prod.fst

/-- Fold a list of writes into a map, modelling a Go loop of assignments. -/
def StrMap.ofWrites {α : Type} (ws : List (String × α)) : StrMap α :=
  ws.foldl (fun m p => m.insertGo p.1 p.2) []

/-- Last write with key `k` in a write list, if any. -/
def lastWrite {α : Type} (ws : List (String × α)) (k : String) : Option α :=
  StrMap.find ws.reverse k

theorem StrMap.hasKey_nil {α : Type} (k : String) :
    StrMap.hasKey ([] : StrMap α) k = false := rfl

theorem StrMap.hasKey_cons {α : Type} (p : String × α) (m : StrMap α) (k : String) :
    StrMap.hasKey (p :: m) k = (decide (p.1 = k) || StrMap.hasKey m k) := rfl

theorem StrMap.find_nil {α : Type} (k : String) :
    StrMap.find ([] : StrMap α) k = none := rfl

theorem StrMap.find_cons {α : Type} (p : String × α) (m : StrMap α) (k : String) :
    StrMap.find (p :: m) k = if p.1 = k then some p.2 else StrMap.find m k := rfl

theorem StrMap.keys_nil {α : Type} : StrMap.keys ([] : StrMap α) = [] := rfl

theorem StrMap.keys_cons {α : Type} (p : String × α) (m : StrMap α) :
    StrMap.keys (p :: m) = p.1 :: StrMap.keys m := rfl

theorem StrMap.hasKey_append {α : Type} (m m' : StrMap α) (k : String) :
    StrMap.hasKey (m ++ m') k = (StrMap.hasKey m k || StrMap.hasKey m' k) := by
  induction m with
  | nil => simp [StrMap.hasKey_nil]
  | cons p m ih =>
      rw [List.cons_append, StrMap.hasKey_cons, StrMap.hasKey_cons, ih, Bool.or_assoc]

theorem StrMap.hasKey_iff_mem_keys {α : Type} (m : StrMap α) (k : String) :
    StrMap.hasKey m k = true ↔ k ∈ m.keys := by
  induction m with
  | nil => simp [StrMap.hasKey_nil, StrMap.keys_nil]
  | cons p m ih =>
      rw [StrMap.hasKey_cons, StrMap.keys_cons, Bool.or_eq_true, decide_eq_true_eq,
        List.mem_cons, ih]
      exact or_congr eq_comm Iff.rfl

theorem StrMap.find_append {α : Type} (m m' : StrMap α) (k : String) :
    StrMap.find (m ++ m') k =
      match StrMap.find m k with
      | some v => some v
      | none => StrMap.find m' k := by
  induction m with
  | nil => simp [StrMap.find_nil]
  | cons p m ih =>
      rw [List.cons_append, StrMap.find_cons, StrMap.find_cons]
      by_cases h : p.1 = k
      · simp [h]
      · simp only [if_neg h, ih]

theorem StrMap.find_eq_none_of_not_hasKey {α : Type} (m : StrMap α) (k : String)
    (h : StrMap.hasKey m k = false) : StrMap.find m k = none := by
  induction m with
  | nil => rfl
  | cons p m ih =>
      rw [StrMap.hasKey_cons, Bool.or_eq_false_iff, decide_eq_false_iff_not] at h
      rw [StrMap.find_cons, if_neg h.1]
      exact ih h.2

theorem StrMap.find_map_replace_self {α : Type} (m : StrMap α) (k : String) (v : α)
    (h : StrMap.hasKey m k = true) :
    StrMap.find (m.map (fun p => if p.1 = k then (k, v) else p)) k = some v := by
  induction m with
  | nil => cases h
  | cons p m ih =>
      rw [List.map_cons]
      by_cases hp : p.1 = k
      · rw [if_pos hp, StrMap.find_cons, if_pos rfl]
      · rw [StrMap.hasKey_cons, decide_eq_false hp, Bool.false_or] at h
        rw [if_neg hp, StrMap.find_cons, if_neg hp]
        exact ih h

theorem StrMap.find_map_replace_ne {α : Type} (m : StrMap α) (k k' : String) (v : α)
    (h : k' ≠ k) :
    StrMap.find (m.map (fun p => if p.1 = k then (k, v) else p)) k' =
      StrMap.find m k' := by
  induction m with
  | nil => rfl
  | cons p m ih =>
      rw [List.map_cons, StrMap.find_cons p m k']
      by_cases hp : p.1 = k
      · rw [if_pos hp, StrMap.find_cons, if_neg (fun he => h he.symm),
          if_neg (fun he => h (hp ▸ he).symm), ih]
      · rw [if_neg hp, StrMap.find_cons]
        by_cases hp' : p.1 = k'
        · rw [if_pos hp', if_pos hp']
        · rw [if_neg hp', if_neg hp', ih]

theorem StrMap.find_insertGo_self {α : Type} (m : StrMap α) (k : String) (v : α) :
    StrMap.find (m.insertGo k v) k = some v := by
  unfold StrMap.insertGo
  by_cases h : m.hasKey k = true
  · rw [if_pos h]
    exact StrMap.find_map_replace_self m k v h
  · rw [if_neg h, StrMap.find_append,
      StrMap.find_eq_none_of_not_hasKey m k (by revert h; cases m.hasKey k <;> simp)]
    rw [StrMap.find_cons, if_pos rfl]

theorem StrMap.find_insertGo_ne {α : Type} (m : StrMap α) (k k' : String) (v : α)
    (h : k' ≠ k) : StrMap.find (m.insertGo k v) k' = StrMap.find m k' := by
  unfold StrMap.insertGo
  by_cases hk : m.hasKey k = true
  · rw [if_pos hk]
    exact StrMap.find_map_replace_ne m k k' v h
  · rw [if_neg hk, StrMap.find_append]
    cases hf : StrMap.find m k' with
    | some v' => rfl
    | none =>
        show StrMap.find [(k, v)] k' = none
        rw [StrMap.find_cons, if_neg (fun he => h he.symm)]
        rfl

theorem lastWrite_append_single {α : Type} (ws : List (String × α)) (p : String × α)
    (k : String) :
    lastWrite (ws ++ [p]) k =
      if p.1 = k then some p.2 else lastWrite ws k := by
  unfold lastWrite
  rw [List.reverse_append, List.reverse_singleton, List.singleton_append,
    StrMap.find_cons]

/-- Folding writes on top of any map: the result of a lookup is the last
write with that key when one exists, and the original binding otherwise. -/
theorem StrMap.find_foldl_writes {α : Type} (ws : List (String × α)) (m : StrMap α)
    (k : String) :
    StrMap.find (ws.foldl (fun m p => m.insertGo p.1 p.2) m) k =
      match lastWrite ws k with
      | some v => some v
      | none => StrMap.find m k := by
  induction ws using List.reverseRecOn generalizing m with
  | nil => rfl
  | append_singleton ws p ih =>
      rw [List.foldl_append, List.foldl_cons, List.foldl_nil, lastWrite_append_single]
      by_cases hp : p.1 = k
      · rw [if_pos hp, hp, StrMap.find_insertGo_self]
      · rw [if_neg hp, StrMap.find_insertGo_ne _ _ _ _ (fun he => hp he.symm), ih]

theorem StrMap.find_ofWrites {α : Type} (ws : List (String × α)) (k : String) :
    StrMap.find (StrMap.ofWrites ws) k =
      match lastWrite ws k with
      | some v => some v
      | none => none := by
  unfold StrMap.ofWrites
  rw [StrMap.find_foldl_writes]
  cases lastWrite ws k <;> rfl

/-- Every entry of a map built from writes is one of the writes. -/
theorem StrMap.mem_foldl_writes {α : Type} (ws : List (String × α)) (m : StrMap α)
    (q : String × α) (h : q ∈ ws.foldl (fun m p => m.insertGo p.1 p.2) m) :
    q ∈ ws ∨ q ∈ m := by
  induction ws generalizing m with
  | nil => exact Or.inr h
  | cons p ws ih =>
      rw [List.foldl_cons] at h
      rcases ih (m.insertGo p.1 p.2) h with hw | hm
      · exact Or.inl (List.mem_cons_of_mem _ hw)
      · unfold StrMap.insertGo at hm
        by_cases hk : m.hasKey p.1 = true
        · rw [if_pos hk] at hm
          rcases List.mem_map.mp hm with ⟨r, hr, hrq⟩
          by_cases hrp : r.1 = p.1
          · rw [if_pos hrp] at hrq
            exact Or.inl (hrq ▸ List.mem_cons_self _ _)
          · rw [if_neg hrp] at hrq
            exact Or.inr (hrq ▸ hr)
        · rw [if_neg hk] at hm
          rcases List.mem_append.mp hm with hm' | hm'
          · exact Or.inr hm'
          · rcases List.mem_singleton.mp hm' with rfl
            exact Or.inl (List.mem_cons_self _ _)

theorem StrMap.mem_ofWrites {α : Type} (ws : List (String × α)) (q : String × α)
    (h : q ∈ StrMap.ofWrites ws) : q ∈ ws := by
  rcases StrMap.mem_foldl_writes ws [] q h with hw | hm
  · exact hw
  · cases hm

/-- Building a map from writes whose keys are pairwise distinct returns the
write list itself. -/
theorem StrMap.ofWrites_eq_self {α : Type} (ws : List (String × α))
    (h : (ws.map Prod.fst).Nodup) : StrMap.ofWrites ws = ws := by
  suffices H : ∀ (m : StrMap α), (ws.map Prod.fst).Nodup →
      (∀ p ∈ ws, m.hasKey p.1 = false) →
      ws.foldl (fun m p => m.insertGo p.1 p.2) m = m ++ ws by
    have := H [] h (fun p _ => rfl)
    unfold StrMap.ofWrites
    rw [this, List.nil_append]
  clear h
  induction ws with
  | nil => intro m _ _; simp
  | cons p ws ih =>
      intro m h hm
      rw [List.map_cons, List.nodup_cons] at h
      rw [List.foldl_cons]
      have hins : m.insertGo p.1 p.2 = m ++ [p] := by
        unfold StrMap.insertGo
        rw [hm p (List.mem_cons_self _ _)]
        simp
      rw [hins, ih (m ++ [p]) h.2 ?_]
      · rw [List.append_assoc, List.singleton_append]
      · intro q hq
        rw [StrMap.hasKey_append, Bool.or_eq_false_iff]
        refine ⟨hm q (List.mem_cons_of_mem _ hq), ?_⟩
        rw [StrMap.hasKey_cons, StrMap.hasKey_nil, Bool.or_false, decide_eq_false]
        intro he
        exact h.1 (he ▸ List.mem_map_of_mem Prod.fst hq)

/-- Lookup in an association list with pairwise distinct keys finds any
member entry. -/
theorem StrMap.find_of_mem_nodup {α : Type} (m : StrMap α) (k : String) (v : α)
    (hmem : (k, v) ∈ m) (hnd : m.keys.Nodup) : StrMap.find m k = some v := by
  induction m with
  | nil => cases hmem
  | cons p m ih =>
      rw [StrMap.keys_cons, List.nodup_cons] at hnd
      rcases List.mem_cons.mp hmem with he | hm
      · rw [StrMap.find_cons, ← he, if_pos rfl]
      · rw [StrMap.find_cons]
        by_cases hp : p.1 = k
        · exact absurd (hp ▸ List.mem_map_of_mem Prod.fst hm) hnd.1
        · rw [if_neg hp]
          exact ih hm hnd.2

/-- schema.GroupVersion. -/
structure GroupVersion where
  group : String
  version : String
deriving DecidableEq

/-- schema.GroupVersion.String(): "group/version", or just the version when
the group is empty. -/
def GroupVersion.str (gv : GroupVersion) : String :=
  if gv.group = "" then gv.version else gv.group ++ "/" ++ gv.version

/-- Group/version/kind triple, the registration key of the runtime scheme. -/
structure GVK where
  group : String
  version : String
  kind : String
deriving DecidableEq

/-- metav1.GroupVersionForDiscovery. -/
structure GroupVersionForDiscovery where
  groupVersion : String
  version : String
deriving DecidableEq

/-- metav1.APIGroup, restricted to the fields the installer reads and
writes: Name, Versions and PreferredVersion. -/
structure APIGroup where
  name : String
  versions : List GroupVersionForDiscovery
  preferredVersion : GroupVersionForDiscovery
deriving DecidableEq

/-- metav1.APIResource, restricted to the fields InstallShadowAPIGroups
reads: Name, Kind, Namespaced and ShortNames. -/
structure APIResource where
  name : String
  kind : String
  namespaced : Bool
  shortNames : List String
deriving DecidableEq

/-- restmapper.APIGroupResources: one discovered group together with its
resource lists per version. -/
structure APIGroupResources where
  group : APIGroup
  versionedResources : StrMap (List APIResource)
deriving DecidableEq

/-- The generic shadow REST storage adapter (template.NewREST) as configured
by InstallShadowAPIGroups: only the identity fields set through
SetNamespaceScoped, SetName, SetShortNames, SetKind, SetGroup and SetVersion
are modelled; the downstream clients the adapter proxies through are opaque. -/
structure RestStorage where
  namespaceScoped : Bool
  name : String
  shortNames : List String
  kind : String
  group : String
  version : String
deriving DecidableEq

/-- storageversion.ResourceInfo, reduced to the identity of the published
resource it records. -/
structure ResourceInfo where
  group : String
  version : String
  resource : String
deriving DecidableEq

/-- genericapi.APIGroupVersion, restricted to the fields the shadow
installer sets that determine route identity and request limits; the
serializer, convertor, admission and authorizer wiring are opaque framework
capabilities and are not modelled. -/
structure APIGroupVersion where
  groupVersion : GroupVersion
  root : String
  storage : StrMap RestStorage
  minRequestTimeout : Int
  maxRequestBodyBytes : Int
  optionsExternalVersion : Option GroupVersion
deriving DecidableEq

/-- genericapiserver.APIGroupInfo, restricted to the fields installAPIGroups
reads: PrioritizedVersions, VersionedResourcesStorageMap and
OptionsExternalVersion. -/
structure APIGroupInfo where
  prioritizedVersions : List GroupVersion
  versionedResourcesStorageMap : StrMap (StrMap RestStorage)
  optionsExternalVersion : Option GroupVersion
deriving DecidableEq

/-- The process-wide registries the installer writes to: the REST routes
published on the go-restful container, the discovery group manager, the
per-group discovery web services, and the storage-version manager. -/
structure ServerState where
  routes : List APIGroupVersion
  discoveryGroups : List APIGroup
  webServices : List APIGroup
  storageVersionInfos : List ResourceInfo
deriving DecidableEq

/-- The two feature toggles gating storage-version coordination
(k8sfeatures.StorageVersionAPI and k8sfeatures.APIServerIdentity). -/
structure FeatureGates where
  storageVersionAPI : Bool
  apiServerIdentity : Bool
deriving DecidableEq

/-- The ShadowAPIServer configuration fields that influence installation. -/
structure ShadowConfig where
  maxRequestBodyBytes : Int
  minRequestTimeout : Int
  gates : FeatureGates
deriving DecidableEq

/-- Outcomes of installAPIGroups other than success.  Indexing
PrioritizedVersions[0] on an empty slice is a Go runtime panic, not a
returned error; it is kept as a distinguished non-validation outcome. -/
inductive InstallErr where
  | panicEmptyPrioritizedVersions
  | emptyGroup
  | emptyVersion
deriving DecidableEq

/-- Whether an installAPIGroups outcome is one of the two returned
validation errors (empty group or empty version string). -/
def InstallErr.isValidationError : InstallErr → Bool
  | .emptyGroup => true
  | .emptyVersion => true
  | .panicEmptyPrioritizedVersions => false

/-- Outcomes of InstallShadowAPIGroups other than success. -/
inductive ShadowErr where
  | discoveryFailed (msg : String)
  | install (e : InstallErr)
deriving DecidableEq

/-- The reserved control-plane group suffix skipped by the scan
(clusternetGroupSuffix in apiserver.go). -/
def clusternetGroupSuffix : String := ".clusternet.io"

/-- genericapiserver.APIGroupPrefix, the root path routes are published
under. -/
def apiGroupRootPath : String := "/apis"

/-- Modelled from the spec: shadowapi.GroupName, the shadow API group's own
name (package pkg/apis/shadow/v1alpha1 is not under src); per the spec it is
the private group the gateway serves, and it carries the control-plane
domain. -/
def shadowGroupName : String := "shadow.clusternet.io"

/-- Modelled from the spec: shadowapi.SchemeGroupVersion.Version, the shadow
API's own fixed version identifier (package pkg/apis/shadow/v1alpha1 is not
under src). -/
def shadowVersionName : String := "v1alpha1"

/-- The adapter produced by template.NewREST followed by the setter calls of
the discovery loop, for one surviving resource of one group. -/
def mkShadowREST (groupName version : String) (r : APIResource) : RestStorage :=
  { namespaceScoped := r.namespaced
  , name := r.name
  , shortNames := r.shortNames
  , kind := r.kind
  , group := groupName
  , version := version }

/-- apiGroupResource.VersionedResources[preferredVersion]; a missing key is
Go's nil slice. -/
def preferredResources (agr : APIGroupResources) : List APIResource :=
  (StrMap.find agr.versionedResources agr.group.preferredVersion.version).getD []

/-- The two consecutive continue-guards of the discovery loop, taken
together: a group is skipped when its name carries the reserved
control-plane suffix, or equals the shadow group's own name. -/
def excludedGroupName (name : String) : Bool :=
  strEndsWith name clusternetGroupSuffix || name = shadowGroupName

/-- One iteration of the discovery loop of InstallShadowAPIGroups: skip an
excluded group (reserved suffix, or the shadow group itself), and otherwise
register every preferred-version resource with the scheme and store its
adapter under its (raw) resource name. -/
def shadowScanStep (acc : List GVK × StrMap RestStorage) (agr : APIGroupResources) :
    List GVK × StrMap RestStorage :=
  if excludedGroupName agr.group.name then acc
  else
    (preferredResources agr).foldl
      (fun acc r =>
        (acc.1 ++ [⟨agr.group.name, agr.group.preferredVersion.version, r.kind⟩],
         acc.2.insertGo r.name
           (mkShadowREST agr.group.name agr.group.preferredVersion.version r)))
      acc

/-- The discovery loop of InstallShadowAPIGroups: the scheme registrations
made and the shadow storage map built, in processing order. -/
def scanShadowResources (groups : List APIGroupResources) :
    List GVK × StrMap RestStorage :=
  groups.foldl shadowScanStep ([], [])

/-- The storage-map writes contributed by one group: none when the group is
excluded, one write per preferred-version resource otherwise. -/
def groupWrites (agr : APIGroupResources) : List (String × RestStorage) :=
  if excludedGroupName agr.group.name then []
  else (preferredResources agr).map
    (fun r => (r.name, mkShadowREST agr.group.name agr.group.preferredVersion.version r))

/-- The scheme registrations contributed by one group. -/
def groupGVKs (agr : APIGroupResources) : List GVK :=
  if excludedGroupName agr.group.name then []
  else (preferredResources agr).map
    (fun r => ⟨agr.group.name, agr.group.preferredVersion.version, r.kind⟩)

/-- All surviving storage writes of a scan, flattened in processing order. -/
def survivingWrites : List APIGroupResources → List (String × RestStorage)
  | [] => []
  | agr :: groups => groupWrites agr ++ survivingWrites groups

/-- All scheme registrations of a scan, flattened in processing order. -/
def survivingGVKs : List APIGroupResources → List GVK
  | [] => []
  | agr :: groups => groupGVKs agr ++ survivingGVKs groups

/-- The APIGroupInfo assembled for the shadow group: a NewDefaultAPIGroupInfo
whose PrioritizedVersions is the single shadow group-version and whose
storage map has one bucket under "v1alpha1".  The codec fields of the Go
struct are framework capabilities and are not modelled; OptionsExternalVersion
is left nil, as NewDefaultAPIGroupInfo leaves it. -/
def shadowAPIGroupInfo (storage : StrMap RestStorage) : APIGroupInfo :=
  { prioritizedVersions := [⟨shadowGroupName, shadowVersionName⟩]
  , versionedResourcesStorageMap := StrMap.insertGo [] "v1alpha1" storage
  , optionsExternalVersion := none }

/-- newAPIGroupVersion: the APIGroupVersion skeleton with the group-version
and the minimum request timeout (in seconds); root, storage and the body
size ceiling are filled in later. -/
def newAPIGroupVersion (cfg : ShadowConfig) (gv : GroupVersion) : APIGroupVersion :=
  { groupVersion := gv
  , root := ""
  , storage := []
  , minRequestTimeout := cfg.minRequestTimeout
  , maxRequestBodyBytes := 0
  , optionsExternalVersion := none }

/-- The key-lowering loop of getAPIGroupVersion: every storage key is
written back under its lower-cased form.  Go ranges over a map here, whose
iteration order is unspecified; the model iterates in insertion order. -/
def lowerStorageKeys (m : StrMap RestStorage) : StrMap RestStorage :=
  m.foldl (fun acc p => acc.insertGo (strLower p.1) p.2) []

/-- apiGroupInfo.VersionedResourcesStorageMap[version]; a missing key is
Go's nil map, of length zero. -/
def storageOf (info : APIGroupInfo) (version : String) : StrMap RestStorage :=
  (StrMap.find info.versionedResourcesStorageMap version).getD []

/-- getAPIGroupVersion: build the version's APIGroupVersion with lower-cased
storage keys and the API root path. -/
def getAPIGroupVersion (cfg : ShadowConfig) (info : APIGroupInfo)
    (gv : GroupVersion) (root : String) : APIGroupVersion :=
  { newAPIGroupVersion cfg gv with
    root := root
  , storage := lowerStorageKeys (storageOf info gv.version) }

/-- The storage-version ResourceInfo records reported for one published
group-version: one per storage entry, carrying the published resource's
identity. -/
def resourceInfosOfAGV (agv : APIGroupVersion) : List ResourceInfo :=
  agv.storage.map (fun p => ⟨agv.groupVersion.group, agv.groupVersion.version, p.1⟩)

/-- APIGroupVersion.InstallREST of the serving framework
(k8s.io/apiserver/pkg/endpoints, an external collaborator consumed at its
interface): publishes the version's route table on the container and reports
one storage-version ResourceInfo per storage entry.  Its internal route
construction is not modelled and cannot fail here. -/
def installREST (st : ServerState) (agv : APIGroupVersion) :
    ServerState × List ResourceInfo :=
  ({ st with routes := st.routes ++ [agv] }, resourceInfosOfAGV agv)

/-- The fully configured APIGroupVersion a published version is installed
with: getAPIGroupVersion, then the OptionsExternalVersion override, then the
request body size ceiling. -/
def installedAGVFor (cfg : ShadowConfig) (info : APIGroupInfo) (root : String)
    (gv : GroupVersion) : APIGroupVersion :=
  let agv0 := getAPIGroupVersion cfg info gv root
  let agv1 :=
    match info.optionsExternalVersion with
    | some v => { agv0 with optionsExternalVersion := some v }
    | none => agv0
  { agv1 with maxRequestBodyBytes := cfg.maxRequestBodyBytes }

/-- The per-version loop of installAPIResources: versions with an empty
resource storage map are skipped with a warning, the others are published. -/
def installAPIResourcesLoop (cfg : ShadowConfig) (info : APIGroupInfo)
    (root : String) :
    List GroupVersion → ServerState × List ResourceInfo → ServerState × List ResourceInfo
  | [], acc => acc
  | gv :: rest, (st, infos) =>
      if (storageOf info gv.version).length = 0 then
        installAPIResourcesLoop cfg info root rest (st, infos)
      else
        let res := installREST st (installedAGVFor cfg info root gv)
        installAPIResourcesLoop cfg info root rest (res.1, infos ++ res.2)

/-- installAPIResources: publish every prioritized version that has
resources, then record the published resources' storage-version infos when
both feature toggles are enabled. -/
def installAPIResources (cfg : ShadowConfig) (st : ServerState) (root : String)
    (info : APIGroupInfo) : ServerState × Option InstallErr :=
  let acc := installAPIResourcesLoop cfg info root info.prioritizedVersions (st, [])
  if cfg.gates.storageVersionAPI && cfg.gates.apiServerIdentity then
    ({ acc.1 with storageVersionInfos := acc.1.storageVersionInfos ++ acc.2 }, none)
  else
    (acc.1, none)

/-- metav1.GroupVersionForDiscovery built from a group-version. -/
def gvForDiscovery (gv : GroupVersion) : GroupVersionForDiscovery :=
  { groupVersion := gv.str, version := gv.version }

/-- The discovery version list of a group: the Go loop skipping versions
whose resource storage map is empty. -/
def apiVersionsForDiscovery (info : APIGroupInfo) : List GroupVersionForDiscovery :=
  info.prioritizedVersions.foldl
    (fun acc gv =>
      if (storageOf info gv.version).length = 0 then acc
      else acc ++ [gvForDiscovery gv]) []

/-- The discovery APIGroup published for an installed group: its name and
preferred version come from PrioritizedVersions[0]. -/
def discoveryAPIGroupFor (info : APIGroupInfo) : APIGroup :=
  { name := (info.prioritizedVersions.headD ⟨"", ""⟩).group
  , versions := apiVersionsForDiscovery info
  , preferredVersion := gvForDiscovery (info.prioritizedVersions.headD ⟨"", ""⟩) }

/-- The validation loop at the head of installAPIGroups: every group of the
batch is checked before any is published. -/
def validateAPIGroups : List APIGroupInfo → Option InstallErr
  | [] => none
  | info :: rest =>
      match info.prioritizedVersions with
      | [] => some .panicEmptyPrioritizedVersions
      | gv :: _ =>
          if gv.group.length = 0 then some .emptyGroup
          else if gv.version.length = 0 then some .emptyVersion
          else validateAPIGroups rest

/-- The publication loop of installAPIGroups, run only after the whole batch
validated: install the REST resources of the group, then add its discovery
APIGroup to the group manager and its web service to the container.  The
error branch of installAPIResources cannot trigger in this model, since
InstallREST is modelled total. -/
def installAPIGroupsLoop (cfg : ShadowConfig) : ServerState → List APIGroupInfo → ServerState
  | st, [] => st
  | st, info :: rest =>
      let st' := (installAPIResources cfg st apiGroupRootPath info).1
      let apiGroup := discoveryAPIGroupFor info
      installAPIGroupsLoop cfg
        { st' with
          discoveryGroups := st'.discoveryGroups ++ [apiGroup]
        , webServices := st'.webServices ++ [apiGroup] } rest

/-- installAPIGroups: validate the whole batch, then publish group by
group. -/
def installAPIGroups (cfg : ShadowConfig) (st : ServerState)
    (infos : List APIGroupInfo) : ServerState × Option InstallErr :=
  match validateAPIGroups infos with
  | some e => (st, some e)
  | none => (installAPIGroupsLoop cfg st infos, none)

/-- InstallShadowAPIGroups: take the downstream discovery answer (the result
of restmapper.GetAPIGroupResources, which the method calls first), abort on
a discovery failure, otherwise scan and filter the discovered groups,
registering schemes and building adapters, and install the single shadow
group. -/
def InstallShadowAPIGroups (cfg : ShadowConfig) (scheme : List GVK)
    (st : ServerState) (discovered : Except String (List APIGroupResources)) :
    (List GVK × ServerState) × Option ShadowErr :=
  match discovered with
  | .error e => ((scheme, st), some (.discoveryFailed e))
  | .ok apiGroupResources =>
      let scan := scanShadowResources apiGroupResources
      let info := shadowAPIGroupInfo scan.2
      let res := installAPIGroups cfg st [info]
      ((scheme ++ scan.1, res.1), res.2.map .install)

/-- The storage map of the shadow route as published: the scan result with
raw resource names lower-cased by getAPIGroupVersion. -/
def publishedShadowStorage (groups : List APIGroupResources) : StrMap RestStorage :=
  lowerStorageKeys (scanShadowResources groups).2

theorem groupWrites_of_excluded (agr : APIGroupResources)
    (h : excludedGroupName agr.group.name = true) : groupWrites agr = [] := by
  unfold groupWrites
  rw [if_pos h]

theorem groupGVKs_of_excluded (agr : APIGroupResources)
    (h : excludedGroupName agr.group.name = true) : groupGVKs agr = [] := by
  unfold groupGVKs
  rw [if_pos h]

theorem groupWrites_of_not_excluded (agr : APIGroupResources)
    (h : excludedGroupName agr.group.name = false) :
    groupWrites agr = (preferredResources agr).map
      (fun r => (r.name,
        mkShadowREST agr.group.name agr.group.preferredVersion.version r)) := by
  unfold groupWrites
  rw [if_neg (by rw [h]; intro hc; cases hc)]

theorem groupGVKs_of_not_excluded (agr : APIGroupResources)
    (h : excludedGroupName agr.group.name = false) :
    groupGVKs agr = (preferredResources agr).map
      (fun r => ⟨agr.group.name, agr.group.preferredVersion.version, r.kind⟩) := by
  unfold groupGVKs
  rw [if_neg (by rw [h]; intro hc; cases hc)]

theorem resourcesFold_eq (name pv : String) (rs : List APIResource)
    (sch : List GVK) (m : StrMap RestStorage) :
    rs.foldl
      (fun acc r =>
        (acc.1 ++ [⟨name, pv, r.kind⟩],
         acc.2.insertGo r.name (mkShadowREST name pv r)))
      (sch, m)
    = (sch ++ rs.map (fun r => (⟨name, pv, r.kind⟩ : GVK)),
       (rs.map (fun r => (r.name, mkShadowREST name pv r))).foldl
         (fun m p => m.insertGo p.1 p.2) m) := by
  induction rs generalizing sch m with
  | nil => simp
  | cons r rs ih =>
      rw [List.foldl_cons, List.map_cons, List.map_cons, List.foldl_cons]
      rw [ih]
      simp [List.append_assoc]

/-- One scan step, rephrased through the per-group write lists. -/
theorem shadowScanStep_eq (acc : List GVK × StrMap RestStorage)
    (agr : APIGroupResources) :
    shadowScanStep acc agr =
      (acc.1 ++ groupGVKs agr,
       (groupWrites agr).foldl (fun m p => m.insertGo p.1 p.2) acc.2) := by
  rcases hx : excludedGroupName agr.group.name with _ | _
  · rw [groupWrites_of_not_excluded agr hx, groupGVKs_of_not_excluded agr hx]
    unfold shadowScanStep
    rw [if_neg (by rw [hx]; intro hc; cases hc)]
    rcases acc with ⟨sch, m⟩
    exact resourcesFold_eq agr.group.name agr.group.preferredVersion.version
      (preferredResources agr) sch m
  · rw [groupWrites_of_excluded agr hx, groupGVKs_of_excluded agr hx,
      List.append_nil, List.foldl_nil]
    unfold shadowScanStep
    rw [if_pos hx]

/-- The discovery loop is the fold of the flattened surviving writes. -/
theorem scanShadowResources_eq (groups : List APIGroupResources) :
    scanShadowResources groups =
      (survivingGVKs groups, StrMap.ofWrites (survivingWrites groups)) := by
  suffices H : ∀ (sch : List GVK) (m : StrMap RestStorage),
      groups.foldl shadowScanStep (sch, m) =
        (sch ++ survivingGVKs groups,
         (survivingWrites groups).foldl (fun m p => m.insertGo p.1 p.2) m) by
    have h0 := H [] []
    rw [List.nil_append] at h0
    exact h0
  induction groups with
  | nil =>
      intro sch m
      show (sch, m) = (sch ++ survivingGVKs [], _)
      rw [show survivingGVKs [] = [] from rfl, show survivingWrites [] = [] from rfl,
        List.append_nil, List.foldl_nil]
  | cons agr groups ih =>
      intro sch m
      rw [List.foldl_cons, shadowScanStep_eq]
      rw [ih]
      rw [show survivingGVKs (agr :: groups) = groupGVKs agr ++ survivingGVKs groups
          from rfl,
        show survivingWrites (agr :: groups) = groupWrites agr ++ survivingWrites groups
          from rfl]
      rw [List.append_assoc, List.foldl_append]

theorem mem_survivingWrites (groups : List APIGroupResources)
    (q : String × RestStorage) :
    q ∈ survivingWrites groups ↔
      ∃ agr ∈ groups, excludedGroupName agr.group.name = false ∧
        ∃ r ∈ preferredResources agr,
          q = (r.name,
            mkShadowREST agr.group.name agr.group.preferredVersion.version r) := by
  induction groups with
  | nil => simp [survivingWrites]
  | cons agr groups ih =>
      show q ∈ groupWrites agr ++ survivingWrites groups ↔ _
      rw [List.mem_append, ih]
      constructor
      · rintro (hq | ⟨agr', hmem, hx, r, hr, hq⟩)
        · rcases hx : excludedGroupName agr.group.name with _ | _
          · rw [groupWrites_of_not_excluded agr hx] at hq
            rcases List.mem_map.mp hq with ⟨r, hr, hrq⟩
            exact ⟨agr, List.mem_cons_self _ _, hx, r, hr, hrq.symm⟩
          · rw [groupWrites_of_excluded agr hx] at hq
            cases hq
        · exact ⟨agr', List.mem_cons_of_mem _ hmem, hx, r, hr, hq⟩
      · rintro ⟨agr', hmem, hx, r, hr, hq⟩
        rcases List.mem_cons.mp hmem with he | hm
        · subst he
          refine Or.inl ?_
          rw [groupWrites_of_not_excluded agr' hx]
          exact hq ▸ List.mem_map_of_mem _ hr
        · exact Or.inr ⟨agr', hm, hx, r, hr, hq⟩

theorem mem_survivingGVKs (groups : List APIGroupResources) (gvk : GVK) :
    gvk ∈ survivingGVKs groups ↔
      ∃ agr ∈ groups, excludedGroupName agr.group.name = false ∧
        ∃ r ∈ preferredResources agr,
          gvk = ⟨agr.group.name, agr.group.preferredVersion.version, r.kind⟩ := by
  induction groups with
  | nil => simp [survivingGVKs]
  | cons agr groups ih =>
      show gvk ∈ groupGVKs agr ++ survivingGVKs groups ↔ _
      rw [List.mem_append, ih]
      constructor
      · rintro (hq | ⟨agr', hmem, hx, r, hr, hq⟩)
        · rcases hx : excludedGroupName agr.group.name with _ | _
          · rw [groupGVKs_of_not_excluded agr hx] at hq
            rcases List.mem_map.mp hq with ⟨r, hr, hrq⟩
            exact ⟨agr, List.mem_cons_self _ _, hx, r, hr, hrq.symm⟩
          · rw [groupGVKs_of_excluded agr hx] at hq
            cases hq
        · exact ⟨agr', List.mem_cons_of_mem _ hmem, hx, r, hr, hq⟩
      · rintro ⟨agr', hmem, hx, r, hr, hq⟩
        rcases List.mem_cons.mp hmem with he | hm
        · subst he
          refine Or.inl ?_
          rw [groupGVKs_of_not_excluded agr' hx]
          exact hq ▸ List.mem_map_of_mem _ hr
        · exact Or.inr ⟨agr', hm, hx, r, hr, hq⟩

theorem strLength_eq_zero_iff (s : String) : s.length = 0 ↔ s = "" := by
  constructor
  · intro h
    cases s with
    | mk data =>
        have : data.length = 0 := h
        rw [List.length_eq_zero] at this
        rw [this]
  · intro h
    rw [h]
    rfl

/-- The versions of a list actually published for a group: those with a
non-empty resource storage map, in their original order. -/
def publishedVersionsOf (info : APIGroupInfo) (l : List GroupVersion) :
    List GroupVersion :=
  l.filter (fun gv => decide (storageOf info gv.version ≠ []))

/-- The storage-version records reported for one whole group. -/
def resourceInfosFor (cfg : ShadowConfig) (info : APIGroupInfo) (root : String) :
    List ResourceInfo :=
  (publishedVersionsOf info info.prioritizedVersions).flatMap
    (fun gv => resourceInfosOfAGV (installedAGVFor cfg info root gv))

theorem installAPIResourcesLoop_eq (cfg : ShadowConfig) (info : APIGroupInfo)
    (root : String) (l : List GroupVersion) (st : ServerState)
    (infos : List ResourceInfo) :
    installAPIResourcesLoop cfg info root l (st, infos) =
      ({ st with routes := st.routes ++
          (publishedVersionsOf info l).map (installedAGVFor cfg info root) },
       infos ++ (publishedVersionsOf info l).flatMap
          (fun gv => resourceInfosOfAGV (installedAGVFor cfg info root gv))) := by
  induction l generalizing st infos with
  | nil => simp [installAPIResourcesLoop, publishedVersionsOf]
  | cons gv rest ih =>
      by_cases h : storageOf info gv.version = []
      · have hlen : (storageOf info gv.version).length = 0 := by rw [h]; rfl
        have hfilter : publishedVersionsOf info (gv :: rest) =
            publishedVersionsOf info rest := by
          unfold publishedVersionsOf
          rw [List.filter_cons_of_neg (by simp [h])]
        rw [show installAPIResourcesLoop cfg info root (gv :: rest) (st, infos) =
            installAPIResourcesLoop cfg info root rest (st, infos) by
          simp only [installAPIResourcesLoop]
          rw [if_pos hlen]]
        rw [ih, hfilter]
      · have hlen : ¬((storageOf info gv.version).length = 0) := by
          intro hc
          exact h (List.length_eq_zero.mp hc)
        have hfilter : publishedVersionsOf info (gv :: rest) =
            gv :: publishedVersionsOf info rest := by
          unfold publishedVersionsOf
          rw [List.filter_cons_of_pos (by simp [h])]
        rw [show installAPIResourcesLoop cfg info root (gv :: rest) (st, infos) =
            installAPIResourcesLoop cfg info root rest
              ((installREST st (installedAGVFor cfg info root gv)).1,
               infos ++ (installREST st (installedAGVFor cfg info root gv)).2) by
          simp only [installAPIResourcesLoop]
          rw [if_neg hlen]]
        rw [ih, hfilter]
        unfold installREST
        rw [List.map_cons, List.flatMap_cons]
        simp [List.append_assoc]

theorem installAPIResources_eq (cfg : ShadowConfig) (st : ServerState)
    (root : String) (info : APIGroupInfo) :
    installAPIResources cfg st root info =
      ({ st with
          routes := st.routes ++ (publishedVersionsOf info info.prioritizedVersions).map
            (installedAGVFor cfg info root)
        , storageVersionInfos := st.storageVersionInfos ++
            (if cfg.gates.storageVersionAPI && cfg.gates.apiServerIdentity
             then resourceInfosFor cfg info root else []) },
       none) := by
  unfold installAPIResources resourceInfosFor
  rw [installAPIResourcesLoop_eq]
  by_cases h : (cfg.gates.storageVersionAPI && cfg.gates.apiServerIdentity) = true
  · rw [if_pos h, if_pos h]
    simp
  · rw [if_neg h, if_neg h]
    simp

/-- The per-group route and discovery contributions of one installed group. -/
def groupRoutes (cfg : ShadowConfig) (info : APIGroupInfo) : List APIGroupVersion :=
  (publishedVersionsOf info info.prioritizedVersions).map
    (installedAGVFor cfg info apiGroupRootPath)

/-- The per-group storage-version contribution, empty unless both feature
toggles are enabled. -/
def groupSVInfos (cfg : ShadowConfig) (info : APIGroupInfo) : List ResourceInfo :=
  if cfg.gates.storageVersionAPI && cfg.gates.apiServerIdentity
  then resourceInfosFor cfg info apiGroupRootPath else []

theorem installAPIGroupsLoop_eq (cfg : ShadowConfig) (infos : List APIGroupInfo)
    (st : ServerState) :
    installAPIGroupsLoop cfg st infos =
      { routes := st.routes ++ infos.flatMap (groupRoutes cfg)
      , discoveryGroups := st.discoveryGroups ++ infos.map discoveryAPIGroupFor
      , webServices := st.webServices ++ infos.map discoveryAPIGroupFor
      , storageVersionInfos := st.storageVersionInfos ++ infos.flatMap (groupSVInfos cfg) } := by
  induction infos generalizing st with
  | nil => simp [installAPIGroupsLoop]
  | cons info rest ih =>
      rw [show installAPIGroupsLoop cfg st (info :: rest) =
          installAPIGroupsLoop cfg
            { (installAPIResources cfg st apiGroupRootPath info).1 with
              discoveryGroups :=
                (installAPIResources cfg st apiGroupRootPath info).1.discoveryGroups
                  ++ [discoveryAPIGroupFor info]
            , webServices :=
                (installAPIResources cfg st apiGroupRootPath info).1.webServices
                  ++ [discoveryAPIGroupFor info] } rest from rfl]
      rw [ih, installAPIResources_eq]
      unfold groupRoutes groupSVInfos
      simp [List.append_assoc]

/-- The discovery version loop is a filter of the prioritized versions. -/
theorem apiVersionsForDiscovery_eq (info : APIGroupInfo) :
    apiVersionsForDiscovery info =
      (publishedVersionsOf info info.prioritizedVersions).map gvForDiscovery := by
  unfold apiVersionsForDiscovery publishedVersionsOf
  suffices H : ∀ (l : List GroupVersion) (acc : List GroupVersionForDiscovery),
      l.foldl (fun acc gv =>
        if (storageOf info gv.version).length = 0 then acc
        else acc ++ [gvForDiscovery gv]) acc =
      acc ++ (l.filter (fun gv => decide (storageOf info gv.version ≠ []))).map
        gvForDiscovery by
    have h0 := H info.prioritizedVersions []
    rw [List.nil_append] at h0
    exact h0
  intro l
  induction l with
  | nil => intro acc; simp
  | cons gv rest ih =>
      intro acc
      rw [List.foldl_cons]
      by_cases h : storageOf info gv.version = []
      · rw [if_pos (by rw [h]; rfl), ih, List.filter_cons_of_neg (by simp [h])]
      · rw [if_neg (fun hc => h (List.length_eq_zero.mp hc)), ih,
          List.filter_cons_of_pos (by simp [h]), List.map_cons]
        rw [List.append_assoc, List.singleton_append]

/-- A batch that passes validation has, for every member, a non-empty
prioritized version list headed by non-empty group and version strings. -/
theorem validateAPIGroups_none_spec (infos : List APIGroupInfo)
    (h : validateAPIGroups infos = none) :
    ∀ info ∈ infos, ∃ gv tl, info.prioritizedVersions = gv :: tl ∧
      gv.group ≠ "" ∧ gv.version ≠ "" := by
  induction infos with
  | nil => intro info hmem; cases hmem
  | cons i rest ih =>
      intro info hmem
      rcases hpv : i.prioritizedVersions with _ | ⟨gv, tl⟩
      · rw [show validateAPIGroups (i :: rest) = some .panicEmptyPrioritizedVersions by
          simp only [validateAPIGroups]
          rw [hpv]] at h
        cases h
      · have hstep : validateAPIGroups (i :: rest) =
            (if gv.group.length = 0 then some .emptyGroup
             else if gv.version.length = 0 then some .emptyVersion
             else validateAPIGroups rest) := by
          simp only [validateAPIGroups]
          rw [hpv]
        by_cases hg : gv.group.length = 0
        · rw [hstep, if_pos hg] at h; cases h
        · by_cases hv : gv.version.length = 0
          · rw [hstep, if_neg hg, if_pos hv] at h; cases h
          · rw [hstep, if_neg hg, if_neg hv] at h
            rcases List.mem_cons.mp hmem with he | hm
            · subst he
              exact ⟨gv, tl, hpv,
                fun hc => hg ((strLength_eq_zero_iff gv.group).mpr hc),
                fun hc => hv ((strLength_eq_zero_iff gv.version).mpr hc)⟩
            · exact ih h info hm

/-- A batch containing a group descriptor with an empty prioritized version
list, or an empty group or version string at its head, never validates. -/
theorem validateAPIGroups_some_of_bad (infos : List APIGroupInfo)
    (info : APIGroupInfo) (hmem : info ∈ infos)
    (hbad : info.prioritizedVersions = [] ∨
      ∃ gv tl, info.prioritizedVersions = gv :: tl ∧
        (gv.group = "" ∨ gv.version = "")) :
    ∃ e, validateAPIGroups infos = some e := by
  rcases he : validateAPIGroups infos with _ | e
  · exfalso
    rcases validateAPIGroups_none_spec infos he info hmem with ⟨gv, tl, hpv, hg, hv⟩
    rcases hbad with hnil | ⟨gv', tl', hpv', hbad'⟩
    · rw [hnil] at hpv; cases hpv
    · rw [hpv'] at hpv
      injection hpv with h1 _
      subst h1
      rcases hbad' with hb | hb
      · exact hg hb
      · exact hv hb
  · exact ⟨e, rfl⟩

/-- lowerStorageKeys is the write-fold of the lower-cased entries. -/
theorem lowerStorageKeys_eq (m : StrMap RestStorage) :
    lowerStorageKeys m = StrMap.ofWrites (m.map (fun p => (strLower p.1, p.2))) := by
  unfold lowerStorageKeys StrMap.ofWrites
  rw [List.foldl_map]

/-- Every entry of the published (lower-cased) map comes from an entry of
the raw map, with its key lower-cased. -/
theorem mem_lowerStorageKeys (m : StrMap RestStorage) (q : String × RestStorage)
    (h : q ∈ lowerStorageKeys m) :
    ∃ p ∈ m, q = (strLower p.1, p.2) := by
  rw [lowerStorageKeys_eq] at h
  rcases List.mem_map.mp (StrMap.mem_ofWrites _ _ h) with ⟨p, hp, he⟩
  exact ⟨p, hp, he.symm⟩

/-- The shadow group's own descriptor always validates: its prioritized
version list is the non-empty singleton of the shadow group-version. -/
theorem validateAPIGroups_shadow (storage : StrMap RestStorage) :
    validateAPIGroups [shadowAPIGroupInfo storage] = none := rfl

/-- The shadow storage bucket is found back under the shadow version key. -/
theorem storageOf_shadowAPIGroupInfo (storage : StrMap RestStorage) :
    storageOf (shadowAPIGroupInfo storage) shadowVersionName = storage := rfl

/-- Success shape of InstallShadowAPIGroups on a successful discovery
answer: the installation never fails, the scheme grows by exactly the
surviving registrations, and the server state is the publication of the
single shadow group. -/
theorem installShadow_ok (cfg : ShadowConfig) (scheme : List GVK)
    (st : ServerState) (groups : List APIGroupResources) :
    InstallShadowAPIGroups cfg scheme st (.ok groups) =
      ((scheme ++ survivingGVKs groups,
        installAPIGroupsLoop cfg st
          [shadowAPIGroupInfo (StrMap.ofWrites (survivingWrites groups))]),
       none) := by
  simp only [InstallShadowAPIGroups, installAPIGroups]
  rw [validateAPIGroups_shadow, scanShadowResources_eq]
  rfl

theorem lastWrite_cons {α : Type} (x : String × α) (xs : List (String × α))
    (k : String) :
    lastWrite (x :: xs) k =
      match lastWrite xs k with
      | some v => some v
      | none => if x.1 = k then some x.2 else none := by
  unfold lastWrite
  rw [List.reverse_cons, StrMap.find_append]
  cases StrMap.find xs.reverse k with
  | some v => rfl
  | none =>
      show StrMap.find [x] k = _
      rw [StrMap.find_cons]
      by_cases h : x.1 = k
      · rw [if_pos h, if_pos h]
      · rw [if_neg h, if_neg h]
        rfl

/-- Two images of the same list have the same last write at key `k` when
they agree pointwise except possibly at entries that miss `k` on both
sides. -/
theorem lastWrite_map_congr {α β : Type} (m : List (String × α))
    (f g : String × α → String × β) (k : String)
    (h : ∀ p ∈ m, f p = g p ∨ ((f p).1 ≠ k ∧ (g p).1 ≠ k)) :
    lastWrite (m.map f) k = lastWrite (m.map g) k := by
  induction m with
  | nil => rfl
  | cons p m ih =>
      rw [List.map_cons, List.map_cons, lastWrite_cons, lastWrite_cons,
        ih (fun q hq => h q (List.mem_cons_of_mem _ hq))]
      cases lastWrite (m.map g) k with
      | some v => rfl
      | none =>
          rcases h p (List.mem_cons_self _ _) with he | ⟨h1, h2⟩
          · rw [he]
          · rw [if_neg h1, if_neg h2]

/-- Inserting under a key whose lower-casing misses `K` leaves the
lower-cased last write at `K` unchanged. -/
theorem lastWrite_lower_insert_ne {α : Type} (m : StrMap α) (k K : String) (v : α)
    (h : strLower k ≠ K) :
    lastWrite ((m.insertGo k v).map (fun p => (strLower p.1, p.2))) K =
      lastWrite (m.map (fun p => (strLower p.1, p.2))) K := by
  unfold StrMap.insertGo
  by_cases hk : m.hasKey k = true
  · rw [if_pos hk, List.map_map]
    refine lastWrite_map_congr m _ _ K (fun p hp => ?_)
    by_cases hpk : p.1 = k
    · refine Or.inr ⟨?_, ?_⟩
      · show strLower (if p.1 = k then (k, v) else p).1 ≠ K
        rw [if_pos hpk]
        exact h
      · show strLower p.1 ≠ K
        rw [hpk]
        exact h
    · refine Or.inl ?_
      show (fun p => (strLower p.1, p.2)) (if p.1 = k then (k, v) else p) = _
      rw [if_neg hpk]
  · rw [if_neg hk, List.map_append, List.map_singleton, lastWrite_append_single,
      if_neg h]

/-- Folding writes that all miss `K` after lower-casing leaves the
lower-cased last write at `K` unchanged. -/
theorem lastWrite_lower_foldl_ne {α : Type} (ws : List (String × α)) (m : StrMap α)
    (K : String) (h : ∀ p ∈ ws, strLower p.1 ≠ K) :
    lastWrite ((ws.foldl (fun m p => m.insertGo p.1 p.2) m).map
        (fun p => (strLower p.1, p.2))) K =
      lastWrite (m.map (fun p => (strLower p.1, p.2))) K := by
  induction ws generalizing m with
  | nil => rfl
  | cons p ws ih =>
      rw [List.foldl_cons,
        ih (m.insertGo p.1 p.2) (fun q hq => h q (List.mem_cons_of_mem _ hq)),
        lastWrite_lower_insert_ne m p.1 K p.2 (h p (List.mem_cons_self _ _))]

/-- When every entry whose lower-cased key hits `K` carries value `v`, and
at least one does, the lower-cased last write at `K` is `v`. -/
theorem lastWrite_lower_of_all {α : Type} (L : StrMap α) (K : String) (v : α)
    (hall : ∀ p ∈ L, strLower p.1 = K → p.2 = v)
    (hex : ∃ p ∈ L, strLower p.1 = K) :
    lastWrite (L.map (fun p => (strLower p.1, p.2))) K = some v := by
  induction L using List.reverseRecOn with
  | nil => rcases hex with ⟨p, hp, _⟩; cases hp
  | append_singleton L x ih =>
      rw [List.map_append, List.map_singleton, lastWrite_append_single]
      by_cases hx : strLower x.1 = K
      · rw [if_pos hx, hall x (List.mem_append_right _ (List.mem_singleton_self x)) hx]
      · rw [if_neg hx]
        refine ih (fun p hp hk => hall p (List.mem_append_left _ hp) hk) ?_
        rcases hex with ⟨p, hp, hk⟩
        rcases List.mem_append.mp hp with hp' | hp'
        · exact ⟨p, hp', hk⟩
        · rcases List.mem_singleton.mp hp' with rfl
          exact absurd hk hx

/-- Inserting under a key whose lower-casing is `K` makes the inserted
value the lower-cased last write at `K`, provided any entry already under
`K` uses the very same raw key. -/
theorem lastWrite_lower_insert_self {α : Type} (m : StrMap α) (k : String) (v : α)
    (K : String) (hK : strLower k = K)
    (huniq : m.hasKey k = true → ∀ p ∈ m, strLower p.1 = K → p.1 = k) :
    lastWrite ((m.insertGo k v).map (fun p => (strLower p.1, p.2))) K = some v := by
  unfold StrMap.insertGo
  by_cases hk : m.hasKey k = true
  · rw [if_pos hk]
    refine lastWrite_lower_of_all _ K v (fun q hq hlow => ?_) ?_
    · rcases List.mem_map.mp hq with ⟨p, hp, he⟩
      by_cases hpk : p.1 = k
      · rw [if_pos hpk] at he
        rw [← he]
      · rw [if_neg hpk] at he
        exfalso
        exact hpk (huniq hk p hp (by rw [he]; exact hlow))
    · rcases (StrMap.hasKey_iff_mem_keys m k).mp hk with hmem
      rcases List.mem_map.mp hmem with ⟨p, hp, hpk⟩
      refine ⟨(k, v), List.mem_map.mpr ⟨p, hp, ?_⟩, hK⟩
      rw [if_pos hpk]
  · rw [if_neg hk, List.map_append, List.map_singleton, lastWrite_append_single,
      if_pos hK]

/-- Last-writer-wins through both key stages: when exactly two writes of a
list hit the same lower-cased key, the published lookup under that key is
the later write's value. -/
theorem find_lower_ofWrites_collision {α : Type} (l1 l2 l3 : List (String × α))
    (n1 n2 : String) (r1 r2 : α)
    (hothers : ∀ p ∈ l1 ++ (l2 ++ l3), strLower p.1 ≠ strLower n2) :
    StrMap.find
      (StrMap.ofWrites
        ((StrMap.ofWrites (l1 ++ (n1, r1) :: (l2 ++ (n2, r2) :: l3))).map
          (fun p => (strLower p.1, p.2))))
      (strLower n2) = some r2 := by
  have h1 : ∀ p ∈ l1, strLower p.1 ≠ strLower n2 :=
    fun p hp => hothers p (List.mem_append_left _ hp)
  have h2 : ∀ p ∈ l2, strLower p.1 ≠ strLower n2 :=
    fun p hp => hothers p (List.mem_append_right _ (List.mem_append_left _ hp))
  have h3 : ∀ p ∈ l3, strLower p.1 ≠ strLower n2 :=
    fun p hp => hothers p (List.mem_append_right _ (List.mem_append_right _ hp))
  have hsplit : l1 ++ (n1, r1) :: (l2 ++ (n2, r2) :: l3) =
      (l1 ++ (n1, r1) :: l2) ++ (n2, r2) :: l3 := by
    rw [List.append_assoc, List.cons_append]
  rw [StrMap.find_ofWrites]
  have hm1 : ∀ p ∈ StrMap.ofWrites (l1 ++ (n1, r1) :: l2),
      p ∈ l1 ++ (n1, r1) :: l2 :=
    fun p hp => StrMap.mem_ofWrites _ p hp
  have huniq : (StrMap.ofWrites (l1 ++ (n1, r1) :: l2)).hasKey n2 = true →
      ∀ p ∈ StrMap.ofWrites (l1 ++ (n1, r1) :: l2),
        strLower p.1 = strLower n2 → p.1 = n2 := by
    intro hk
    have hn12 : n1 = n2 := by
      rcases (StrMap.hasKey_iff_mem_keys _ n2).mp hk with hmem
      rcases List.mem_map.mp hmem with ⟨q, hq, hqk⟩
      rcases List.mem_append.mp (hm1 q hq) with hq' | hq'
      · exact absurd (by rw [hqk]) (h1 q hq')
      · rcases List.mem_cons.mp hq' with he | hq''
        · rw [← hqk, he]
        · exact absurd (by rw [hqk]) (h2 q hq'')
    intro p hp hpl
    rcases List.mem_append.mp (hm1 p hp) with hp' | hp'
    · exact absurd hpl (h1 p hp')
    · rcases List.mem_cons.mp hp' with he | hp''
      · rw [he, hn12]
      · exact absurd hpl (h2 p hp'')
  have hmain : lastWrite
      ((StrMap.ofWrites (l1 ++ (n1, r1) :: (l2 ++ (n2, r2) :: l3))).map
        (fun p => (strLower p.1, p.2))) (strLower n2) = some r2 := by
    rw [hsplit]
    unfold StrMap.ofWrites
    rw [List.foldl_append, List.foldl_cons]
    rw [lastWrite_lower_foldl_ne l3 _ (strLower n2) h3]
    exact lastWrite_lower_insert_self _ n2 r2 (strLower n2) rfl huniq
  rw [hmain]

/-- Every surviving storage write belongs to a non-excluded group, recorded
in its adapter's group field. -/
theorem survivingWrites_group_not_excluded (groups : List APIGroupResources)
    (p : String × RestStorage) (hp : p ∈ survivingWrites groups) :
    excludedGroupName p.2.group = false := by
  rcases (mem_survivingWrites groups p).mp hp with ⟨agr, _, hx, r, _, he⟩
  rw [he]
  exact hx

/-- Every surviving scheme registration belongs to a non-excluded group. -/
theorem survivingGVKs_group_not_excluded (groups : List APIGroupResources)
    (gvk : GVK) (hgvk : gvk ∈ survivingGVKs groups) :
    excludedGroupName gvk.group = false := by
  rcases (mem_survivingGVKs groups gvk).mp hgvk with ⟨agr, _, hx, r, _, he⟩
  rw [he]
  exact hx

/-- C1: for every discovered API group whose name ends with the reserved
control-plane suffix ".clusternet.io", or equals the shadow group's own
name, InstallShadowAPIGroups adds no resource of that group: no new scheme
registration and no storage adapter (in the raw scan map or in the
published lower-cased map) carries that group name. -/
theorem InstallShadowAPIGroups_excludes_reserved_and_self (cfg : ShadowConfig)
    (scheme : List GVK) (st : ServerState) (groups : List APIGroupResources)
    (name : String)
    (hexcl : strEndsWith name clusternetGroupSuffix = true ∨ name = shadowGroupName) :
    (∀ gvk ∈ (InstallShadowAPIGroups cfg scheme st (.ok groups)).1.1,
        gvk ∈ scheme ∨ gvk.group ≠ name)
    ∧ (∀ p ∈ (scanShadowResources groups).2,
        (p : String × RestStorage).2.group ≠ name)
    ∧ (∀ p ∈ publishedShadowStorage groups,
        (p : String × RestStorage).2.group ≠ name) := by
  have hx : excludedGroupName name = true := by
    unfold excludedGroupName
    rcases hexcl with h | h
    · rw [h, Bool.true_or]
    · rw [decide_eq_true h, Bool.or_true]
  have hscan2 : (scanShadowResources groups).2 =
      StrMap.ofWrites (survivingWrites groups) := by
    rw [scanShadowResources_eq]
  refine ⟨?_, ?_, ?_⟩
  · intro gvk hmem
    rw [installShadow_ok] at hmem
    rcases List.mem_append.mp hmem with hs | hs
    · exact Or.inl hs
    · refine Or.inr (fun heq => ?_)
      have hne := survivingGVKs_group_not_excluded groups gvk hs
      rw [heq, hx] at hne
      cases hne
  · intro p hp
    rw [hscan2] at hp
    have hsw := StrMap.mem_ofWrites _ p hp
    intro heq
    have hne := survivingWrites_group_not_excluded groups p hsw
    rw [heq, hx] at hne
    cases hne
  · intro p hp
    unfold publishedShadowStorage at hp
    rw [hscan2] at hp
    rcases mem_lowerStorageKeys _ p hp with ⟨q, hq, he⟩
    have hsw := StrMap.mem_ofWrites _ q hq
    intro heq
    have hne := survivingWrites_group_not_excluded groups q hsw
    rw [show p.2 = q.2 by rw [he]] at heq
    rw [heq, hx] at hne
    cases hne

/-- C2 (amended): provided no two surviving resources share the same
lower-cased name, every preferred-version resource of every non-excluded
discovered group appears exactly once in the published shadow storage map,
keyed by its lower-cased name and mapped to its own adapter; and every
published entry originates from such a preferred-version resource, so no
resource of a non-preferred version is exposed. -/
theorem shadowStorage_completeness_noCollision (groups : List APIGroupResources)
    (hnodup : ((survivingWrites groups).map (fun p => strLower p.1)).Nodup) :
    (∀ agr ∈ groups, excludedGroupName agr.group.name = false →
      ∀ r ∈ preferredResources agr,
        StrMap.find (publishedShadowStorage groups) (strLower r.name) =
          some (mkShadowREST agr.group.name agr.group.preferredVersion.version r))
    ∧ (publishedShadowStorage groups).keys.Nodup
    ∧ (∀ p ∈ publishedShadowStorage groups, ∃ agr ∈ groups,
        excludedGroupName agr.group.name = false ∧
        ∃ r ∈ preferredResources agr,
          p = (strLower r.name,
            mkShadowREST agr.group.name agr.group.preferredVersion.version r)) := by
  have hraw : ((survivingWrites groups).map Prod.fst).Nodup := by
    refine List.Nodup.of_map strLower ?_
    rw [List.map_map]
    exact hnodup
  have hscan2 : (scanShadowResources groups).2 = survivingWrites groups := by
    rw [scanShadowResources_eq]
    exact StrMap.ofWrites_eq_self _ hraw
  have hpub : publishedShadowStorage groups =
      (survivingWrites groups).map (fun p => (strLower p.1, p.2)) := by
    unfold publishedShadowStorage
    rw [hscan2, lowerStorageKeys_eq]
    refine StrMap.ofWrites_eq_self _ ?_
    rw [List.map_map]
    exact hnodup
  have hkeys : (publishedShadowStorage groups).keys =
      (survivingWrites groups).map (fun p => strLower p.1) := by
    rw [hpub]
    unfold StrMap.keys
    rw [List.map_map]
    rfl
  refine ⟨?_, ?_, ?_⟩
  · intro agr hmem hx r hr
    have hw : (r.name,
        mkShadowREST agr.group.name agr.group.preferredVersion.version r) ∈
        survivingWrites groups :=
      (mem_survivingWrites groups _).mpr ⟨agr, hmem, hx, r, hr, rfl⟩
    have hw' : (strLower r.name,
        mkShadowREST agr.group.name agr.group.preferredVersion.version r) ∈
        publishedShadowStorage groups := by
      rw [hpub]
      exact List.mem_map.mpr ⟨_, hw, rfl⟩
    refine StrMap.find_of_mem_nodup _ _ _ hw' ?_
    rw [hkeys]
    exact hnodup
  · rw [hkeys]
    exact hnodup
  · intro p hp
    rw [hpub] at hp
    rcases List.mem_map.mp hp with ⟨q, hq, he⟩
    rcases (mem_survivingWrites groups q).mp hq with ⟨agr, hmem, hx, r, hr, hqe⟩
    exact ⟨agr, hmem, hx, r, hr, by rw [← he, hqe]⟩

/-- C3: a batch containing a GroupDescriptor whose head prioritized version
has an empty group or version string makes installAPIGroups return an error
with the server state untouched: zero routes are installed for every group
of the batch. -/
theorem installAPIGroups_validation_failFast (cfg : ShadowConfig)
    (st : ServerState) (infos : List APIGroupInfo) (info : APIGroupInfo)
    (gv : GroupVersion) (tl : List GroupVersion) (hmem : info ∈ infos)
    (hpv : info.prioritizedVersions = gv :: tl)
    (hbad : gv.group = "" ∨ gv.version = "") :
    ∃ e, installAPIGroups cfg st infos = (st, some e) := by
  rcases validateAPIGroups_some_of_bad infos info hmem
    (Or.inr ⟨gv, tl, hpv, hbad⟩) with ⟨e, he⟩
  refine ⟨e, ?_⟩
  unfold installAPIGroups
  rw [he]

/-- C4 (amended): a GroupDescriptor with an empty prioritizedVersions
sequence at the head of a batch makes installAPIGroups abort through the
index-out-of-range panic of PrioritizedVersions[0], which is not one of the
returned validation errors; the server state is untouched. -/
theorem installAPIGroups_emptyPrioritizedVersions_panics (cfg : ShadowConfig)
    (st : ServerState) (info : APIGroupInfo) (rest : List APIGroupInfo)
    (h : info.prioritizedVersions = []) :
    installAPIGroups cfg st (info :: rest) =
      (st, some InstallErr.panicEmptyPrioritizedVersions)
    ∧ InstallErr.panicEmptyPrioritizedVersions.isValidationError = false := by
  refine ⟨?_, rfl⟩
  unfold installAPIGroups
  rw [show validateAPIGroups (info :: rest) =
      some InstallErr.panicEmptyPrioritizedVersions by
    simp only [validateAPIGroups]
    rw [h]]

/-- C5: for a successfully installed batch, each group's published
discovery entry advertises exactly the prioritized versions whose resource
storage map is non-empty, in the original preference order, with name and
preferred version taken from prioritizedVersions[0]; a listed version with
no resources never appears in the discovery document. -/
theorem installAPIGroups_discovery_spec (cfg : ShadowConfig) (st st' : ServerState)
    (infos : List APIGroupInfo)
    (hok : installAPIGroups cfg st infos = (st', none)) :
    st'.discoveryGroups = st.discoveryGroups ++ infos.map discoveryAPIGroupFor
    ∧ ∀ info ∈ infos, ∃ gv0 tl, info.prioritizedVersions = gv0 :: tl
        ∧ (discoveryAPIGroupFor info).versions =
            (publishedVersionsOf info info.prioritizedVersions).map gvForDiscovery
        ∧ (discoveryAPIGroupFor info).preferredVersion = gvForDiscovery gv0
        ∧ (discoveryAPIGroupFor info).name = gv0.group
        ∧ (∀ gv ∈ info.prioritizedVersions, storageOf info gv.version = [] →
            ∀ d ∈ (discoveryAPIGroupFor info).versions, d.version ≠ gv.version) := by
  have hval : validateAPIGroups infos = none := by
    rcases hv : validateAPIGroups infos with _ | e
    · rfl
    · exfalso
      unfold installAPIGroups at hok
      rw [hv] at hok
      exact Option.noConfusion (show some e = none from congrArg Prod.snd hok)
  have hst' : st' = installAPIGroupsLoop cfg st infos := by
    unfold installAPIGroups at hok
    rw [hval] at hok
    injection hok with h1 _
    rw [h1]
  constructor
  · rw [hst', installAPIGroupsLoop_eq]
  · intro info hmem
    rcases validateAPIGroups_none_spec infos hval info hmem with ⟨gv0, tl, hpv, _, _⟩
    refine ⟨gv0, tl, hpv, ?_, ?_, ?_, ?_⟩
    · show apiVersionsForDiscovery info = _
      exact apiVersionsForDiscovery_eq info
    · show gvForDiscovery (info.prioritizedVersions.headD ⟨"", ""⟩) = _
      rw [hpv, List.headD_cons]
    · show (info.prioritizedVersions.headD ⟨"", ""⟩).group = _
      rw [hpv, List.headD_cons]
    · intro gv hgv hempty d hd
      have hd' : d ∈ (publishedVersionsOf info info.prioritizedVersions).map
          gvForDiscovery := by
        rw [show (discoveryAPIGroupFor info).versions = apiVersionsForDiscovery info
            from rfl, apiVersionsForDiscovery_eq] at hd
        exact hd
      rcases List.mem_map.mp hd' with ⟨gv', hgv', he⟩
      rcases List.mem_filter.mp hgv' with ⟨_, hne⟩
      intro hcontra
      have hv' : gv'.version = gv.version := by
        rw [← he] at hcontra
        exact hcontra
      rw [decide_eq_true_eq] at hne
      rw [hv'] at hne
      exact hne hempty

/-- C6: a failed downstream discovery query makes InstallShadowAPIGroups
return the discovery error with the scheme and the whole server state
untouched: no registration, no storage adapter, no route, no discovery
entry. -/
theorem InstallShadowAPIGroups_discoveryFailure_noChange (cfg : ShadowConfig)
    (scheme : List GVK) (st : ServerState) (e : String) :
    InstallShadowAPIGroups cfg scheme st (.error e) =
      ((scheme, st), some (ShadowErr.discoveryFailed e)) := rfl

/-- C7: installAPIResources appends the published resources' storage-version
infos to the coordination registry exactly when both feature toggles are
enabled, and returns without error either way. -/
theorem installAPIResources_storageVersion_gating (cfg : ShadowConfig)
    (st : ServerState) (root : String) (info : APIGroupInfo) :
    (installAPIResources cfg st root info).2 = none
    ∧ (installAPIResources cfg st root info).1.storageVersionInfos =
        (if cfg.gates.storageVersionAPI && cfg.gates.apiServerIdentity
         then st.storageVersionInfos ++ resourceInfosFor cfg info root
         else st.storageVersionInfos) := by
  rw [installAPIResources_eq]
  refine ⟨rfl, ?_⟩
  show st.storageVersionInfos ++ _ = _
  by_cases h : (cfg.gates.storageVersionAPI && cfg.gates.apiServerIdentity) = true
  · rw [if_pos h, if_pos h]
  · rw [if_neg h, if_neg h, List.append_nil]

/-- C8: when two surviving discovered resources normalize to the same
lower-cased name (and no other surviving resource shares it), the
later-processed resource's adapter is the one found in the published shadow
storage map — last writer wins — and the installation still succeeds with
no error. -/
theorem shadowStorage_collision_lastWriterWins (cfg : ShadowConfig)
    (scheme : List GVK) (st : ServerState) (groups : List APIGroupResources)
    (l1 l2 l3 : List (String × RestStorage)) (n1 n2 : String)
    (r1 r2 : RestStorage)
    (hdec : survivingWrites groups = l1 ++ (n1, r1) :: (l2 ++ (n2, r2) :: l3))
    (hlow : strLower n1 = strLower n2)
    (hothers : ∀ p ∈ l1 ++ (l2 ++ l3), strLower p.1 ≠ strLower n2) :
    StrMap.find (publishedShadowStorage groups) (strLower n2) = some r2
    ∧ (InstallShadowAPIGroups cfg scheme st (.ok groups)).2 = none := by
  constructor
  · have h2 : (scanShadowResources groups).2 =
        StrMap.ofWrites (l1 ++ (n1, r1) :: (l2 ++ (n2, r2) :: l3)) := by
      rw [scanShadowResources_eq, hdec]
    unfold publishedShadowStorage
    rw [h2, lowerStorageKeys_eq]
    exact find_lower_ofWrites_collision l1 l2 l3 n1 n2 r1 r2 hothers
  · rw [installShadow_ok]

/-- Concrete configuration used by the witnesses. -/
def wCfg : ShadowConfig := ⟨1024, 30, ⟨true, true⟩⟩

/-- Fresh server state used by the witnesses. -/
def wState : ServerState := ⟨[], [], [], []⟩

/-- One discovered namespaced resource with no short names. -/
def wRes (n k : String) : APIResource := ⟨n, k, true, []⟩

/-- One discovered group exposing the given resources under its single,
preferred version. -/
def wGroup (name ver : String) (rs : List APIResource) : APIGroupResources :=
  ⟨⟨name, [], ⟨name ++ "/" ++ ver, ver⟩⟩, [(ver, rs)]⟩

/-- Two non-excluded groups whose preferred versions both expose a resource
named "demos". -/
def collisionGroups : List APIGroupResources :=
  [wGroup "apps" "v1" [wRes "demos" "Demo"],
   wGroup "batch" "v1" [wRes "demos" "Bemo"]]

/-- C2 counterexample: with two non-excluded groups both exposing a
preferred-version resource named "demos", the earlier group's resource does
not appear in the published shadow storage map under its lower-cased name —
the later group's adapter sits there instead, so the claim fails as
universally stated. -/
theorem shadowStorage_completeness_counterexample :
    excludedGroupName "apps" = false
    ∧ wGroup "apps" "v1" [wRes "demos" "Demo"] ∈ collisionGroups
    ∧ wRes "demos" "Demo" ∈ preferredResources (wGroup "apps" "v1" [wRes "demos" "Demo"])
    ∧ StrMap.find (publishedShadowStorage collisionGroups) (strLower "demos") ≠
        some (mkShadowREST "apps" "v1" (wRes "demos" "Demo"))
    ∧ StrMap.find (publishedShadowStorage collisionGroups) (strLower "demos") =
        some (mkShadowREST "batch" "v1" (wRes "demos" "Bemo")) := by
  decide

/-- A group descriptor with an empty prioritized version sequence. -/
def c4Info : APIGroupInfo := ⟨[], [], none⟩

/-- C4 counterexample: on a batch headed by a descriptor with empty
prioritizedVersions, installAPIGroups hits the PrioritizedVersions[0] index
panic — not a returned validation error — so the claim fails as stated. -/
theorem installAPIGroups_emptyPV_counterexample :
    installAPIGroups wCfg wState [c4Info] =
      (wState, some InstallErr.panicEmptyPrioritizedVersions)
    ∧ InstallErr.panicEmptyPrioritizedVersions.isValidationError = false :=
  ⟨rfl, rfl⟩

/-- An excluded and a surviving group, as discovered. -/
def c1Groups : List APIGroupResources :=
  [wGroup "internal.clusternet.io" "v1" [wRes "foos" "Foo"],
   wGroup "apps" "v1" [wRes "deployments" "Deployment"]]

theorem InstallShadowAPIGroups_excludes_witness :
    (strEndsWith "internal.clusternet.io" clusternetGroupSuffix = true ∨
      ("internal.clusternet.io" : String) = shadowGroupName)
    ∧ (∀ p ∈ publishedShadowStorage c1Groups,
        (p : String × RestStorage).2.group ≠ "internal.clusternet.io") :=
  ⟨Or.inl (by decide),
   (InstallShadowAPIGroups_excludes_reserved_and_self wCfg [] wState c1Groups
      "internal.clusternet.io" (Or.inl (by decide))).2.2⟩

/-- Two non-excluded groups with collision-free resource names. -/
def c2Groups : List APIGroupResources :=
  [wGroup "apps" "v1" [wRes "deployments" "Deployment"],
   wGroup "batch" "v1" [wRes "jobs" "Job"]]

theorem shadowStorage_completeness_witness :
    ((survivingWrites c2Groups).map (fun p => strLower p.1)).Nodup
    ∧ StrMap.find (publishedShadowStorage c2Groups) (strLower "deployments") =
        some (mkShadowREST "apps" "v1" (wRes "deployments" "Deployment")) :=
  ⟨by decide,
   (shadowStorage_completeness_noCollision c2Groups (by decide)).1
     (wGroup "apps" "v1" [wRes "deployments" "Deployment"]) (by decide) (by decide)
     (wRes "deployments" "Deployment") (by decide)⟩

/-- A group descriptor whose head prioritized version has an empty version
string. -/
def c3BadInfo : APIGroupInfo := ⟨[⟨"apps", ""⟩], [], none⟩

theorem installAPIGroups_validation_failFast_witness :
    c3BadInfo.prioritizedVersions = ⟨"apps", ""⟩ :: []
    ∧ (("apps" : String) = "" ∨ ("" : String) = "")
    ∧ ∃ e, installAPIGroups wCfg wState [c3BadInfo] = (wState, some e) :=
  ⟨rfl, Or.inr rfl,
   installAPIGroups_validation_failFast wCfg wState [c3BadInfo] c3BadInfo
     ⟨"apps", ""⟩ [] (List.mem_cons_self _ _) rfl (Or.inr rfl)⟩

theorem installAPIGroups_emptyPV_witness :
    c4Info.prioritizedVersions = []
    ∧ installAPIGroups wCfg wState [c4Info] =
        (wState, some InstallErr.panicEmptyPrioritizedVersions) :=
  ⟨rfl,
   (installAPIGroups_emptyPrioritizedVersions_panics wCfg wState c4Info [] rfl).1⟩

/-- A descriptor advertising v1 and v2 but storing resources only under
v1. -/
def c5Info : APIGroupInfo :=
  { prioritizedVersions := [⟨"apps", "v1"⟩, ⟨"apps", "v2"⟩]
  , versionedResourcesStorageMap :=
      [("v1", [("deployments", mkShadowREST "apps" "v1" (wRes "deployments" "Deployment"))])]
  , optionsExternalVersion := none }

theorem installAPIGroups_discovery_witness :
    installAPIGroups wCfg wState [c5Info] =
      ((installAPIGroups wCfg wState [c5Info]).1, none)
    ∧ (installAPIGroups wCfg wState [c5Info]).1.discoveryGroups =
        wState.discoveryGroups ++ [c5Info].map discoveryAPIGroupFor
    ∧ (discoveryAPIGroupFor c5Info).versions = [gvForDiscovery ⟨"apps", "v1"⟩] :=
  ⟨by decide,
   (installAPIGroups_discovery_spec wCfg wState _ [c5Info] (by decide)).1,
   by decide⟩

theorem shadowStorage_collision_witness :
    survivingWrites collisionGroups =
      [] ++ ("demos", mkShadowREST "apps" "v1" (wRes "demos" "Demo")) ::
        ([] ++ ("demos", mkShadowREST "batch" "v1" (wRes "demos" "Bemo")) :: [])
    ∧ StrMap.find (publishedShadowStorage collisionGroups) (strLower "demos") =
        some (mkShadowREST "batch" "v1" (wRes "demos" "Bemo")) :=
  ⟨by decide,
   (shadowStorage_collision_lastWriterWins wCfg [] wState collisionGroups
      [] [] [] "demos" "demos"
      (mkShadowREST "apps" "v1" (wRes "demos" "Demo"))
      (mkShadowREST "batch" "v1" (wRes "demos" "Bemo"))
      (by decide) rfl (by decide)).1⟩

/-- corev1.NodeCondition, restricted to the fields the controller reads:
Type and Status (both strings in the API). -/
structure NodeCondition where
  condType : String
  status : String
deriving DecidableEq

/-- corev1.NodeStatus, restricted to the condition list. -/
structure NodeStatus where
  conditions : List NodeCondition
deriving DecidableEq

/-- corev1.Node, restricted to its status. -/
structure Node where
  status : NodeStatus
deriving DecidableEq

/-- clusterapi.NodeStatistics. -/
structure NodeStatistics where
  readyNodes : Nat
  notReadyNodes : Nat
  unknownNodes : Nat
  lostNodes : Nat
deriving DecidableEq, Inhabited

/-- The scan of getNodeCondition over the condition slice, carrying the
running index. -/
def findCondition : List NodeCondition → Nat → String → Option (Nat × NodeCondition)
  | [], _, _ => none
  | c :: cs, i, t => if c.condType = t then some (i, c) else findCondition cs (i + 1) t

/-- getNodeCondition: the index and the first condition of the requested
type; Go's (-1, nil) answer — nil status, or no condition of that type —
is modelled as none. -/
def getNodeCondition (status : Option NodeStatus) (conditionType : String) :
    Option (Nat × NodeCondition) :=
  match status with
  | none => none
  | some st => findCondition st.conditions 0 conditionType

/-- One iteration of the getNodeStatistics loop: the Ready condition of the
node decides which counter grows; the switch has no default, so any other
status string leaves every counter untouched. -/
def nodeStatStep (stats : NodeStatistics) (node : Node) : NodeStatistics :=
  match getNodeCondition (some node.status) "Ready" with
  | none => { stats with lostNodes := stats.lostNodes + 1 }
  | some ic =>
      if ic.2.status = "True" then { stats with readyNodes := stats.readyNodes + 1 }
      else if ic.2.status = "False" then
        { stats with notReadyNodes := stats.notReadyNodes + 1 }
      else if ic.2.status = "Unknown" then
        { stats with unknownNodes := stats.unknownNodes + 1 }
      else stats

/-- getNodeStatistics: fold the per-node classification over the node list,
starting from the zero-valued statistics. -/
def getNodeStatistics (nodes : List Node) : NodeStatistics :=
  nodes.foldl nodeStatStep ⟨0, 0, 0, 0⟩

/-- The node has no Ready condition. -/
def lostFlag (n : Node) : Bool :=
  match getNodeCondition (some n.status) "Ready" with
  | none => true
  | some _ => false

/-- The node's first Ready condition has status True. -/
def readyFlag (n : Node) : Bool :=
  match getNodeCondition (some n.status) "Ready" with
  | none => false
  | some ic => ic.2.status = "True"

/-- The node's first Ready condition has status False. -/
def notReadyFlag (n : Node) : Bool :=
  match getNodeCondition (some n.status) "Ready" with
  | none => false
  | some ic => ic.2.status = "False" ∧ ic.2.status ≠ "True"

/-- The node's first Ready condition has status Unknown. -/
def unknownFlag (n : Node) : Bool :=
  match getNodeCondition (some n.status) "Ready" with
  | none => false
  | some ic => ic.2.status = "Unknown" ∧ ic.2.status ≠ "True" ∧ ic.2.status ≠ "False"

/-- The node's Ready condition is absent, or carries one of the three
protocol status strings. -/
def validReadyStatus (n : Node) : Bool :=
  match getNodeCondition (some n.status) "Ready" with
  | none => true
  | some ic =>
      ic.2.status = "True" || ic.2.status = "False" || ic.2.status = "Unknown"

theorem getNodeStatistics_foldl (nodes : List Node) : ∀ init : NodeStatistics,
    nodes.foldl nodeStatStep init =
      { readyNodes := init.readyNodes + nodes.countP readyFlag
      , notReadyNodes := init.notReadyNodes + nodes.countP notReadyFlag
      , unknownNodes := init.unknownNodes + nodes.countP unknownFlag
      , lostNodes := init.lostNodes + nodes.countP lostFlag } := by
  induction nodes with
  | nil => intro init; simp
  | cons node nodes ih =>
      intro init
      rw [List.foldl_cons, ih]
      rw [List.countP_cons, List.countP_cons, List.countP_cons, List.countP_cons]
      unfold nodeStatStep readyFlag notReadyFlag unknownFlag lostFlag
      rcases hc : getNodeCondition (some node.status) "Ready" with _ | ic
      · dsimp only
        simp
        omega
      · dsimp only
        by_cases h1 : ic.2.status = "True"
        · rw [if_pos h1]
          simp [h1]
          omega
        · rw [if_neg h1]
          by_cases h2 : ic.2.status = "False"
          · rw [if_pos h2]
            simp [h1, h2]
            omega
          · rw [if_neg h2]
            by_cases h3 : ic.2.status = "Unknown"
            · rw [if_pos h3]
              simp [h1, h2, h3]
              omega
            · rw [if_neg h3]
              simp [h1, h2, h3]

theorem countP_partition (nodes : List Node)
    (h : ∀ node ∈ nodes, validReadyStatus node = true) :
    nodes.countP readyFlag + nodes.countP notReadyFlag
      + nodes.countP unknownFlag + nodes.countP lostFlag = nodes.length := by
  induction nodes with
  | nil => rfl
  | cons node nodes ih =>
      have ih' := ih (fun n hn => h n (List.mem_cons_of_mem _ hn))
      have hn := h node (List.mem_cons_self _ _)
      rw [List.countP_cons, List.countP_cons, List.countP_cons, List.countP_cons,
        List.length_cons]
      unfold validReadyStatus at hn
      rcases hc : getNodeCondition (some node.status) "Ready" with _ | ic
      · have e1 : readyFlag node = false := by unfold readyFlag; rw [hc]
        have e2 : notReadyFlag node = false := by unfold notReadyFlag; rw [hc]
        have e3 : unknownFlag node = false := by unfold unknownFlag; rw [hc]
        have e4 : lostFlag node = true := by unfold lostFlag; rw [hc]
        rw [e1, e2, e3, e4]
        simp
        omega
      · rw [hc] at hn
        have e4 : lostFlag node = false := by unfold lostFlag; rw [hc]
        rw [Bool.or_eq_true, Bool.or_eq_true, decide_eq_true_eq, decide_eq_true_eq,
          decide_eq_true_eq] at hn
        rcases hn with (h1 | h1) | h1
        · have e1 : readyFlag node = true := by
            unfold readyFlag; rw [hc]; exact decide_eq_true h1
          have e2 : notReadyFlag node = false := by
            unfold notReadyFlag; rw [hc]; dsimp only; rw [h1]; decide
          have e3 : unknownFlag node = false := by
            unfold unknownFlag; rw [hc]; dsimp only; rw [h1]; decide
          rw [e1, e2, e3, e4]
          simp
          omega
        · have e1 : readyFlag node = false := by
            unfold readyFlag; rw [hc]; dsimp only; rw [h1]; decide
          have e2 : notReadyFlag node = true := by
            unfold notReadyFlag; rw [hc]; dsimp only; rw [h1]; decide
          have e3 : unknownFlag node = false := by
            unfold unknownFlag; rw [hc]; dsimp only; rw [h1]; decide
          rw [e1, e2, e3, e4]
          simp
          omega
        · have e1 : readyFlag node = false := by
            unfold readyFlag; rw [hc]; dsimp only; rw [h1]; decide
          have e2 : notReadyFlag node = false := by
            unfold notReadyFlag; rw [hc]; dsimp only; rw [h1]; decide
          have e3 : unknownFlag node = true := by
            unfold unknownFlag; rw [hc]; dsimp only; rw [h1]; decide
          rw [e1, e2, e3, e4]
          simp
          omega

/-- C10: when every node's Ready condition is absent or carries one of the
three protocol statuses, getNodeStatistics counts each node in exactly one
counter — ReadyNodes for True, NotReadyNodes for False, UnknownNodes for
Unknown, LostNodes for an absent condition — so the four counters sum to
the number of nodes. -/
theorem getNodeStatistics_partition (nodes : List Node)
    (h : ∀ node ∈ nodes, validReadyStatus node = true) :
    (getNodeStatistics nodes).readyNodes = nodes.countP readyFlag
    ∧ (getNodeStatistics nodes).notReadyNodes = nodes.countP notReadyFlag
    ∧ (getNodeStatistics nodes).unknownNodes = nodes.countP unknownFlag
    ∧ (getNodeStatistics nodes).lostNodes = nodes.countP lostFlag
    ∧ (getNodeStatistics nodes).readyNodes + (getNodeStatistics nodes).notReadyNodes
        + (getNodeStatistics nodes).unknownNodes + (getNodeStatistics nodes).lostNodes
        = nodes.length := by
  have hf := getNodeStatistics_foldl nodes ⟨0, 0, 0, 0⟩
  have hr : (getNodeStatistics nodes).readyNodes = nodes.countP readyFlag := by
    unfold getNodeStatistics
    rw [hf]
    exact Nat.zero_add _
  have hnr : (getNodeStatistics nodes).notReadyNodes = nodes.countP notReadyFlag := by
    unfold getNodeStatistics
    rw [hf]
    exact Nat.zero_add _
  have hu : (getNodeStatistics nodes).unknownNodes = nodes.countP unknownFlag := by
    unfold getNodeStatistics
    rw [hf]
    exact Nat.zero_add _
  have hl : (getNodeStatistics nodes).lostNodes = nodes.countP lostFlag := by
    unfold getNodeStatistics
    rw [hf]
    exact Nat.zero_add _
  refine ⟨hr, hnr, hu, hl, ?_⟩
  rw [hr, hnr, hu, hl]
  exact countP_partition nodes h

/-- Four nodes exercising the four branches of the classification. -/
def c10Nodes : List Node :=
  [⟨⟨[⟨"Ready", "True"⟩]⟩⟩,
   ⟨⟨[⟨"Ready", "False"⟩]⟩⟩,
   ⟨⟨[⟨"DiskPressure", "True"⟩, ⟨"Ready", "Unknown"⟩]⟩⟩,
   ⟨⟨[⟨"DiskPressure", "False"⟩]⟩⟩]

theorem getNodeStatistics_partition_witness :
    (∀ node ∈ c10Nodes, validReadyStatus node = true)
    ∧ (getNodeStatistics c10Nodes).readyNodes + (getNodeStatistics c10Nodes).notReadyNodes
        + (getNodeStatistics c10Nodes).unknownNodes + (getNodeStatistics c10Nodes).lostNodes
        = c10Nodes.length :=
  ⟨by decide, (getNodeStatistics_partition c10Nodes (by decide)).2.2.2.2⟩

/-- clusterapi.ManagedClusterStatus, restricted to the fields the collector
writes; timestamps are natural numbers and resource quantities numeric
maps. -/
structure ManagedClusterStatus where
  kubernetesVersion : String
  platform : String
  apiserverURL : String
  healthz : Bool
  livez : Bool
  readyz : Bool
  appPusher : Bool
  useSocket : Bool
  parentAPIServerURL : String
  clusterCIDR : String
  serviceCIDR : String
  nodeStatistics : NodeStatistics
  capacity : StrMap Nat
  allocatable : StrMap Nat
  lastObservedTime : Nat
deriving DecidableEq, Inhabited

/-- The aliasing-relevant state of the cluster-status controller: a heap of
status cells (pointers are indices into it) and the controller's
clusterStatus pointer, nil until the first collection completes.  Pointer
indirection is modelled explicitly because GetClusterStatus's deep-copy
contract is about aliasing: the caller must never receive a pointer into
the controller's own cell. -/
structure CtrlState where
  heap : List ManagedClusterStatus
  clusterStatusPtr : Option Nat
deriving DecidableEq

/-- The controller state right after NewController: no status stored. -/
def initialCtrlState : CtrlState := ⟨[], none⟩

/-- setClusterStatus: the collected status arrives by value, so it lives in
a fresh cell; the controller's pointer is redirected to that cell and the
cell's LastObservedTime is set to the collection time.  The nil-guard
allocation in the Go code is dead — the pointer it assigns is immediately
overwritten — and has no observable effect. -/
def setClusterStatus (st : CtrlState) (status : ManagedClusterStatus) (now : Nat) :
    CtrlState :=
  { heap := st.heap ++ [{ status with lastObservedTime := now }]
  , clusterStatusPtr := some st.heap.length }

/-- GetClusterStatus: nil while no status is stored; otherwise a pointer to
a fresh cell holding a DeepCopy of the stored status. -/
def GetClusterStatus (st : CtrlState) : Option Nat × CtrlState :=
  match st.clusterStatusPtr with
  | none => (none, st)
  | some p =>
      (some st.heap.length, { st with heap := st.heap ++ [st.heap.getD p default] })

/-- One completed run of collectingClusterStatus, summarized by the status
it assembled and the collection time. -/
inductive CtrlOp where
  | collect (status : ManagedClusterStatus) (now : Nat)
deriving DecidableEq

/-- The controller state after a sequence of completed collections. -/
def runOps (ops : List CtrlOp) : CtrlState :=
  ops.foldl (fun st op => match op with | .collect s t => setClusterStatus st s t)
    initialCtrlState

/-- A caller mutating the cell behind a pointer it holds. -/
def writeHeap (st : CtrlState) (ptr : Nat) (v : ManagedClusterStatus) : CtrlState :=
  { st with heap := st.heap.set ptr v }

theorem runOps_append_single (ops : List CtrlOp) (s : ManagedClusterStatus)
    (t : Nat) :
    runOps (ops ++ [CtrlOp.collect s t]) = setClusterStatus (runOps ops) s t := by
  unfold runOps
  rw [List.foldl_append]
  rfl

/-- The stored pointer of a reachable controller state is in bounds. -/
theorem runOps_ptr_lt (ops : List CtrlOp) (p : Nat)
    (h : (runOps ops).clusterStatusPtr = some p) :
    p < (runOps ops).heap.length := by
  induction ops using List.reverseRecOn with
  | nil => cases h
  | append_singleton ops op _ =>
      rcases op with ⟨s, t⟩
      rw [runOps_append_single] at h ⊢
      unfold setClusterStatus at h ⊢
      injection h with h1
      rw [← h1, List.length_append, List.length_singleton]
      exact Nat.lt_succ_self _

/-- C9: GetClusterStatus returns nil exactly when no status collection has
completed yet; afterwards it returns a fresh pointer — distinct from the
controller's own cell — whose content deep-copies the last stored status,
and writes through the returned pointer never change the stored status. -/
theorem GetClusterStatus_spec (ops : List CtrlOp) :
    ((GetClusterStatus (runOps ops)).1 = none ↔ ops = [])
    ∧ (∀ q p, (GetClusterStatus (runOps ops)).1 = some q →
        (runOps ops).clusterStatusPtr = some p →
        q ≠ p
        ∧ (GetClusterStatus (runOps ops)).2.heap[q]? = (runOps ops).heap[p]?
        ∧ (GetClusterStatus (runOps ops)).2.heap[p]? = (runOps ops).heap[p]?
        ∧ ∀ v, (writeHeap (GetClusterStatus (runOps ops)).2 q v).heap[p]? =
            (runOps ops).heap[p]?)
    ∧ (∀ ops' s t p, ops = ops' ++ [CtrlOp.collect s t] →
        (runOps ops).clusterStatusPtr = some p →
        (runOps ops).heap[p]? = some { s with lastObservedTime := t }) := by
  refine ⟨?_, ?_, ?_⟩
  · constructor
    · intro h
      rcases List.eq_nil_or_concat ops with hnil | ⟨L, b, hcat⟩
      · exact hnil
      · exfalso
        rcases b with ⟨s, t⟩
        rw [hcat, List.concat_eq_append, runOps_append_single] at h
        rw [show GetClusterStatus (setClusterStatus (runOps L) s t) =
            (some (setClusterStatus (runOps L) s t).heap.length, _) from rfl] at h
        cases h
    · intro h
      rw [h]
      rfl
  · intro q p hq hp
    have hGet1 : (GetClusterStatus (runOps ops)).1 =
        some (runOps ops).heap.length := by
      unfold GetClusterStatus
      rw [hp]
    have hGet2 : (GetClusterStatus (runOps ops)).2.heap =
        (runOps ops).heap ++ [(runOps ops).heap.getD p default] := by
      unfold GetClusterStatus
      rw [hp]
    have hplt := runOps_ptr_lt ops p hp
    rw [hGet1] at hq
    injection hq with hq1
    have hqlen : q = (runOps ops).heap.length := hq1.symm
    have hne : q ≠ p := by
      rw [hqlen]
      exact fun he => Nat.lt_irrefl _ (he ▸ hplt)
    have hcell : ((runOps ops).heap ++
        [(runOps ops).heap.getD p default])[q]? = (runOps ops).heap[p]? := by
      rw [hqlen, List.getElem?_concat_length, List.getD_eq_getElem _ _ hplt,
        List.getElem?_eq_getElem hplt]
    refine ⟨hne, ?_, ?_, ?_⟩
    · rw [hGet2]
      exact hcell
    · rw [hGet2]
      exact List.getElem?_append_left hplt
    · intro v
      unfold writeHeap
      show ((GetClusterStatus (runOps ops)).2.heap.set q v)[p]? =
        (runOps ops).heap[p]?
      rw [hGet2, List.getElem?_set_ne hne]
      exact List.getElem?_append_left hplt
  · intro ops' s t p he hp
    subst he
    rw [runOps_append_single] at hp ⊢
    unfold setClusterStatus at hp ⊢
    injection hp with h1
    rw [← h1]
    exact List.getElem?_concat_length _ _

/-- A concrete collected status. -/
def c9Status : ManagedClusterStatus :=
  ⟨"v1.19.10", "linux/amd64", "https://10.0.0.10:6443", true, true, true,
   true, false, "https://parent", "10.0.0.0/16", "10.96.0.0/12",
   ⟨1, 0, 0, 0⟩, [("cpu", 4)], [("cpu", 3)], 0⟩

/-- A different status a caller might write through the returned pointer. -/
def c9Mutated : ManagedClusterStatus :=
  { c9Status with kubernetesVersion := "v1.22.0" }

/-- One completed collection. -/
def c9Ops : List CtrlOp := [CtrlOp.collect c9Status 5]

theorem GetClusterStatus_spec_witness :
    ((GetClusterStatus (runOps c9Ops)).1 = none ↔ c9Ops = [])
    ∧ (1 : Nat) ≠ 0
    ∧ (GetClusterStatus (runOps c9Ops)).2.heap[1]? = (runOps c9Ops).heap[0]?
    ∧ (writeHeap (GetClusterStatus (runOps c9Ops)).2 1 c9Mutated).heap[0]? =
        (runOps c9Ops).heap[0]? :=
  ⟨(GetClusterStatus_spec c9Ops).1,
   ((GetClusterStatus_spec c9Ops).2.1 1 0 (by decide) (by decide)).1,
   ((GetClusterStatus_spec c9Ops).2.1 1 0 (by decide) (by decide)).2.1,
   ((GetClusterStatus_spec c9Ops).2.1 1 0 (by decide) (by decide)).2.2.2 c9Mutated⟩

end Clusternet
